import Mathlib

/-!
Verification of the retrieval-and-chunking core of the Chef Intelligence
repository: a shallow embedding in Lean 4 of `app/utils/text_processor.py`
(class `TextProcessor`) and `app/core/retriever.py` (class `BM25Retriever`),
together with theorems settling the specification claims about them.

Strings are modelled as `List Char`, Python integers as `Nat`/`Int`,
Python floats as exact `ℚ` arithmetic (with `math.log` modelled by
`Real.log` on the rational argument).  The `while` loop of
`char_chunking` is modelled with explicit fuel: a result of `none` means
the loop did not finish within the given fuel, and a `none` result for
every fuel value means the loop runs forever.
-/

/-- Python `str.strip()` on ASCII-ish text: remove leading and trailing
whitespace characters. -/
def pyStrip (s : List Char) : List Char :=
  ((s.dropWhile Char.isWhitespace).reverse.dropWhile Char.isWhitespace).reverse

/-- Helper for `clean_text`: one pass that replaces every maximal run of
whitespace by a single space, as `re.sub(r"\s+", " ", text)` does.  The
Boolean argument records whether the previous character was whitespace. -/
def collapseWsGo : List Char → Bool → List Char
  | [], _ => []
  | c :: rest, prevWs =>
    if c.isWhitespace then
      if prevWs then collapseWsGo rest true
      else ' ' :: collapseWsGo rest true
    else c :: collapseWsGo rest false

/-- `TextProcessor.clean_text`: collapse whitespace runs to single spaces,
then strip. -/
def clean_text (text : List Char) : List Char :=
  pyStrip (collapseWsGo text false)

/-- Helper for `split_into_sentences`, modelling
`re.split(r'(?<=[.!?])\s+', text)`: a separator is a maximal whitespace
run whose immediately preceding character is `.`, `!` or `?`.  The
arguments are: remaining input, whether we are inside a separator run,
the previous character, and the current part accumulated in reverse. -/
def splitSentsGo : List Char → Bool → Char → List Char → List (List Char)
  | [], inSep, _, acc => if inSep then [[]] else [acc.reverse]
  | c :: rest, inSep, prev, acc =>
    if inSep then
      if c.isWhitespace then splitSentsGo rest true prev acc
      else splitSentsGo rest false c [c]
    else
      if c.isWhitespace ∧ (prev = '.' ∨ prev = '!' ∨ prev = '?') then
        acc.reverse :: splitSentsGo rest true ' ' []
      else splitSentsGo rest false c (c :: acc)

/-- `TextProcessor.split_into_sentences`: split at sentence boundaries,
strip each part, drop empty parts. -/
def split_into_sentences (text : List Char) : List (List Char) :=
  ((splitSentsGo text false ' ' []).map pyStrip).filter (fun p => p ≠ [])

/-- A word character in the sense of the regex `\w` (ASCII fragment):
letters, digits and underscore. -/
def isWordChar (c : Char) : Bool := c.isAlphanum || c == '_'

/-- Maximal runs of word characters, as `re.findall(r'\b\w+\b', text)`
returns them.  The accumulator holds the current run in reverse. -/
def splitRunsAux : List Char → List Char → List (List Char)
  | [], acc => if acc = [] then [] else [acc.reverse]
  | c :: rest, acc =>
    if isWordChar c then splitRunsAux rest (c :: acc)
    else if acc = [] then splitRunsAux rest []
    else acc.reverse :: splitRunsAux rest []

/-- `BM25Retriever.tokenize`: lowercase, then extract maximal runs of word
characters in order. -/
def tokenize (text : List Char) : List (List Char) :=
  splitRunsAux (text.map Char.toLower) []

/-- Configuration of a `TextProcessor` instance: the `chunk_size` and
`overlap` fields set in `__init__`. -/
structure TPConfig where
  chunk_size : Nat
  overlap : Nat

/-- Python truthiness resolution `passed or default` for an optional
integer parameter: `None` and `0` both select the default. -/
def resolveNat (passed : Option Nat) (dflt : Nat) : Nat :=
  match passed with
  | none => dflt
  | some v => if v = 0 then dflt else v

/-- The `while start < n` loop of `TextProcessor.char_chunking`, with
explicit fuel.  `none` means the fuel ran out before the loop finished.
The next start is `end - overlap` clamped to `0`, which truncated `Nat`
subtraction models exactly. -/
def charChunkLoop (text : List Char) (cs ov : Nat) : Nat → Nat → Option (List (List Char))
  | 0, _ => none
  | fuel + 1, start =>
    if start < text.length then
      let e := min (start + cs) text.length
      let chunk := pyStrip ((text.drop start).take (e - start))
      if e = text.length then some [chunk]
      else
        match charChunkLoop text cs ov fuel (e - ov) with
        | none => none
        | some rest => some (chunk :: rest)
    else some []

/-- `TextProcessor.char_chunking`: resolve `chunk_size`/`overlap` by
truthiness against the instance configuration, run the sliding-window
loop, and drop empty (stripped) chunks. -/
def char_chunking (cfg : TPConfig) (text : List Char)
    (chunk_size overlap : Option Nat) (fuel : Nat) : Option (List (List Char)) :=
  if text = [] then some []
  else
    (charChunkLoop text (resolveNat chunk_size cfg.chunk_size)
        (resolveNat overlap cfg.overlap) fuel 0).map
      (fun chunks => chunks.filter (fun c => c ≠ []))

/-- Shape validation of the encoder result, modelling
`emb.ndim != 2 or emb.shape[0] != len(sents)`: a list of rows is a
two-dimensional array exactly when all rows have equal length
(`np.asarray` of a ragged list is one-dimensional), and the row count
must equal the sentence count. -/
def validShape (emb : List (List ℚ)) (n : Nat) : Bool :=
  emb.length == n &&
    (match emb with
     | [] => true
     | r :: rs => rs.all (fun x => x.length == r.length))

/-- L2-normalize one embedding row, as the `np.linalg.norm` /
`norms[norms == 0] = 1e-8` / division steps do: rows of zero norm are
divided by `1e-8` instead. -/
noncomputable def normRow (r : List ℚ) : List ℝ :=
  let nrm := Real.sqrt ((r.map (fun x => ((x : ℝ)) ^ 2)).sum)
  let d := if nrm = 0 then ((1 : ℝ) / 100000000) else nrm
  r.map (fun x => (x : ℝ) / d)

/-- Dot product of two embedding rows (`np.dot` on equal-length
vectors). -/
noncomputable def dotR (a bv : List ℝ) : ℝ := (List.zipWith (· * ·) a bv).sum

/-- `" ".join(parts)` on our character-list strings. -/
def joinSp (parts : List (List Char)) : List Char :=
  List.intercalate [' '] parts

/-- The greedy grouping loop of `semantic_chunking`: for each `i` in
`range(1, len(sents))` compare the cosine similarity of the normalized
embeddings of sentences `i-1` and `i` with the threshold; below the
threshold close the current chunk, otherwise extend it.  The pair state
is (closed chunks, current chunk as a sentence list). -/
noncomputable def groupSents (threshold : ℚ) (sents : List (List Char))
    (normed : List (List ℝ)) : List (List Char) :=
  let step := fun (st : List (List Char) × List (List Char)) (i : Nat) =>
    let sim := dotR (normed.getD (i - 1) []) (normed.getD i [])
    if sim < (threshold : ℝ) then (st.1 ++ [joinSp st.2], [sents.getD i []])
    else (st.1, st.2 ++ [sents.getD i []])
  let fin := (List.range' 1 (sents.length - 1)).foldl step ([], [sents.headD []])
  fin.1 ++ [joinSp fin.2]

/-- One step of the final merge pass: a chunk shorter than 40 characters
is appended (with a joining space) to the previous chunk.  The
accumulator holds the merged list in reverse. -/
def mergeSmallStep (acc : List (List Char)) (c : List Char) : List (List Char) :=
  match acc with
  | [] => [c]
  | m :: rest => if c.length < 40 then (m ++ ' ' :: c) :: rest else c :: m :: rest

/-- The final merge pass of `semantic_chunking`. -/
def mergeSmall (chunks : List (List Char)) : List (List Char) :=
  (chunks.foldl mergeSmallStep []).reverse

/-- `TextProcessor.semantic_chunking`: clean, split into sentences,
short-circuit on zero or one sentence, validate the encoder result
shape (falling back to `char_chunking` on the cleaned text with the
instance configuration on mismatch), then group by consecutive cosine
similarity and merge tiny chunks.  The fuel is only consumed by the
`char_chunking` fallback. -/
noncomputable def semantic_chunking (cfg : TPConfig) (text : List Char)
    (encoder_fn : List (List Char) → List (List ℚ)) (similarity_threshold : ℚ)
    (fuel : Nat) : Option (List (List Char)) :=
  let t := clean_text text
  if t = [] then some []
  else
    let sents := split_into_sentences t
    if sents.length = 0 then some []
    else if sents.length = 1 then some [sents.headD []]
    else
      let emb := encoder_fn sents
      if validShape emb sents.length then
        some (mergeSmall (groupSents similarity_threshold sents (emb.map normRow)))
      else char_chunking cfg t none none fuel

/-- A token, as produced by `tokenize`. -/
abbrev Token := List Char

/-- Modelled value of `Config.BM25_K1` (environment default `1.5`). -/
def BM25_K1 : ℚ := 3 / 2

/-- Modelled value of `Config.BM25_B` (environment default `0.75`). -/
def BM25_B : ℚ := 3 / 4

/-- Modelled value of `Config.TOP_K_RETRIEVAL` (environment default `3`). -/
def TOP_K_RETRIEVAL : Nat := 3

/-- Python truthiness resolution `passed or default` for an optional
float parameter: `None` and `0.0` both select the default. -/
def resolveQ (passed : Option ℚ) (dflt : ℚ) : ℚ :=
  match passed with
  | none => dflt
  | some v => if v = 0 then dflt else v

/-- The state of a `BM25Retriever` instance.  The Python `doc_freqs`
dict is modelled by its key list `dfKeys` together with the count
function `doc_freqs` (0 outside the keys); the `idf` dict of the code
has exactly the same keys and stores `log (idfArg)` for each, which we
derive by the functions `idfArg` and `idf` below. -/
structure BM25 where
  k1 : ℚ
  b : ℚ
  documents : List (List Char)
  tokenized_docs : List (List Token)
  doc_lengths : List Nat
  avg_doc_length : ℚ
  dfKeys : List Token
  doc_freqs : Token → Nat

/-- `BM25Retriever.__init__`: resolve `k1`/`b` by truthiness against the
configuration defaults and start with empty index state. -/
def mkRetriever (k1 bParam : Option ℚ) : BM25 :=
  { k1 := resolveQ k1 BM25_K1
    b := resolveQ bParam BM25_B
    documents := []
    tokenized_docs := []
    doc_lengths := []
    avg_doc_length := 0
    dfKeys := []
    doc_freqs := fun _ => 0 }

/-- One document's contribution to the document-frequency table: every
token of the document counted once (`for token in set(tokenized_doc)`). -/
def addDocFreqs (freqs : Token → Nat) (doc : List Token) : Token → Nat :=
  fun t => if t ∈ doc then freqs t + 1 else freqs t

/-- `BM25Retriever.index_documents`: rebuild every derived table from
scratch (only `k1` and `b` survive from the previous state). -/
def index_documents (s : BM25) (documents : List (List Char)) : BM25 :=
  let tdocs := documents.map tokenize
  let lens := tdocs.map List.length
  { k1 := s.k1
    b := s.b
    documents := documents
    tokenized_docs := tdocs
    doc_lengths := lens
    avg_doc_length := if lens.length = 0 then 0 else ((lens.sum : ℚ) / (lens.length : ℚ))
    dfKeys := tdocs.flatten.dedup
    doc_freqs := tdocs.foldl addDocFreqs (fun _ => 0) }

/-- The argument of the logarithm in the idf formula of
`index_documents`: `(num_docs - freq + 0.5) / (freq + 0.5) + 1.0`. -/
def idfArg (s : BM25) (t : Token) : ℚ :=
  ((s.documents.length : ℚ) - (s.doc_freqs t : ℚ) + 1 / 2) /
      ((s.doc_freqs t : ℚ) + 1 / 2) + 1

/-- The stored idf value for a token: `math.log` of `idfArg`. -/
noncomputable def idf (s : BM25) (t : Token) : ℝ :=
  Real.log ((idfArg s t : ℚ) : ℝ)

/-- The per-token factor of the BM25 formula in `calculate_bm25_score`:
`(tf * (k1 + 1)) / (tf + k1 * (1 - b + b * (doc_length / avg_doc_length)))`. -/
def termRatio (s : BM25) (t : Token) (i : Nat) : ℚ :=
  let tf : ℚ := ((s.tokenized_docs.getD i []).count t : ℚ)
  let dl : ℚ := ((s.doc_lengths.getD i 0 : Nat) : ℚ)
  (tf * (s.k1 + 1)) / (tf + s.k1 * (1 - s.b + s.b * (dl / s.avg_doc_length)))

/-- `BM25Retriever.calculate_bm25_score`: sum `idf * termRatio` over the
query tokens, skipping tokens absent from the idf table. -/
noncomputable def bm25Score (s : BM25) (query_tokens : List Token) (i : Nat) : ℝ :=
  query_tokens.foldl
    (fun acc t =>
      if t ∈ s.dfKeys then acc + idf s t * ((termRatio s t i : ℚ) : ℝ) else acc)
    0

/-- The `scores` list built by `retrieve`: `(idx, score)` for every
document index in order. -/
noncomputable def scoresList (s : BM25) (qt : List Token) : List (Nat × ℝ) :=
  (List.range s.documents.length).map (fun i => (i, bm25Score s qt i))

/-- The stable descending sort `scores.sort(key=lambda x: x[1],
reverse=True)`: a stable insertion sort that keeps an element before a
later one whenever its score is greater or equal. -/
noncomputable def sortScores (l : List (Nat × ℝ)) : List (Nat × ℝ) :=
  List.insertionSort (fun a bv => bv.2 ≤ a.2) l

/-- The `top_results` list of `retrieve`: sorted scores truncated to
`top_k` (with `None` resolved to the configured default by an explicit
`is None` check, not truthiness). -/
noncomputable def retrieveRanked (s : BM25) (query : List Char)
    (top_k : Option Nat) : List (Nat × ℝ) :=
  (sortScores (scoresList s (tokenize query))).take (top_k.getD TOP_K_RETRIEVAL)

/-- `BM25Retriever.retrieve`: map the ranked index list back to the
document texts. -/
noncomputable def retrieve (s : BM25) (query : List Char)
    (top_k : Option Nat) : List (List Char × ℝ) :=
  (retrieveRanked s query top_k).map (fun p => (s.documents.getD p.1 [], p.2))

/-- `dropWhile` is the identity on a list none of whose elements satisfy
the predicate. -/
theorem dropWhile_eq_self_of_none (p : Char → Bool) (l : List Char)
    (h : ∀ c ∈ l, p c = false) : l.dropWhile p = l := by
  cases l with
  | nil => rfl
  | cons a l => simp [List.dropWhile, h a (List.mem_cons_self a l)]

/-- Stripping a list that contains no whitespace leaves it unchanged. -/
theorem pyStrip_eq_self (l : List Char)
    (h : ∀ c ∈ l, c.isWhitespace = false) : pyStrip l = l := by
  unfold pyStrip
  rw [dropWhile_eq_self_of_none _ _ h,
    dropWhile_eq_self_of_none _ _ (fun c hc => h c (List.mem_reverse.mp hc)),
    List.reverse_reverse]

/-- The eleven-character test text used for the divergence result. -/
def txt11 : List Char := ['a', 'b', 'c', 'd', 'e', 'f', 'g', 'h', 'i', 'j', 'k']

/-- Claim C1 (refuted, code bug): with `chunk_size = 5` and
`overlap = 5` on an 11-character text, the `while` loop of
`char_chunking` never finishes: for every fuel value the fuel-indexed
loop fails to complete, i.e. the code loops forever.  The clamp to zero
does not ensure termination; it pins the window start at 0 forever. -/
theorem c1_char_chunking_overlap_eq_cs_diverges :
    ∀ (cfg : TPConfig) (fuel : Nat),
      char_chunking cfg txt11 (some 5) (some 5) fuel = none := by
  intro cfg fuel
  have hloop : ∀ f : Nat, charChunkLoop txt11 5 5 f 0 = none := by
    intro f
    induction f with
    | zero => rfl
    | succ n ih =>
      simp only [txt11] at ih ⊢
      simp [charChunkLoop, ih]
  have hloop2 := hloop fuel
  simp only [txt11] at hloop2
  simp [char_chunking, resolveNat, txt11, hloop2]

/-- A 25-character whitespace-free test text. -/
def aaa25 : List Char := List.replicate 25 'a'

/-- Claim C2 counterexample: on a `TextProcessor` whose configured
`overlap` is 5, calling `char_chunking` with `chunk_size = 10` and
`overlap = 0` on a 25-character string produces 4 chunks, not 3: the
explicit `overlap = 0` is discarded by the `or`-truthiness fallback in
favour of the instance default. -/
theorem c2_three_chunks_counterexample :
    (char_chunking ⟨1000, 5⟩ aaa25 (some 10) (some 0) 10).map List.length =
      some 4 := by decide

/-- Claim C3 (confirmed): retrieval against a never-populated index, or
one indexed with the empty collection, returns the empty sequence for
every query and every `top_k`; moreover the per-document score list is
itself empty, so `calculate_bm25_score` (the only place that divides by
`avg_doc_length`) is never invoked. -/
theorem c3_empty_corpus_retrieve_empty :
    ∀ (k1 bParam : Option ℚ) (query : List Char) (top_k : Option Nat),
      retrieve (mkRetriever k1 bParam) query top_k = [] ∧
      retrieve (index_documents (mkRetriever k1 bParam) []) query top_k = [] ∧
      scoresList (mkRetriever k1 bParam) (tokenize query) = [] ∧
      scoresList (index_documents (mkRetriever k1 bParam) []) (tokenize query) = [] := by
  intro k1 bParam query top_k
  refine ⟨?_, ?_, ?_, ?_⟩ <;>
    simp [retrieve, retrieveRanked, scoresList, sortScores, mkRetriever,
      index_documents, List.insertionSort]

/-- Claim C6 (confirmed): `index_documents` rebuilds every derived table
from the argument collection alone, so indexing the same collection
twice is the same as indexing it once, indexing after any earlier
indexing is the same as indexing from scratch, and scores after
re-indexing are unchanged for every query and document index. -/
theorem c6_reindexing_replaces_state :
    ∀ (s : BM25) (docs other : List (List Char)),
      index_documents (index_documents s docs) docs = index_documents s docs ∧
      index_documents (index_documents s other) docs = index_documents s docs ∧
      ∀ (qt : List Token) (i : Nat),
        bm25Score (index_documents (index_documents s docs) docs) qt i =
          bm25Score (index_documents s docs) qt i := by
  intro s docs other
  exact ⟨rfl, rfl, fun qt i => rfl⟩

/-- Claim C10 (confirmed): passing `0` (or `0.0`) explicitly selects the
default because the code substitutes by truthiness: a `BM25Retriever`
built with `k1 = 0.0, b = 0.0` equals one built with no arguments and
carries the configured defaults `1.5` and `0.75`, and `char_chunking`
called with `chunk_size = 0, overlap = 0` behaves exactly as a call
without arguments, for every instance configuration and input. -/
theorem c10_zero_selects_defaults :
    mkRetriever (some 0) (some 0) = mkRetriever none none ∧
    (mkRetriever (some 0) (some 0)).k1 = 3 / 2 ∧
    (mkRetriever (some 0) (some 0)).b = 3 / 4 ∧
    ∀ (cfg : TPConfig) (text : List Char) (fuel : Nat),
      char_chunking cfg text (some 0) (some 0) fuel =
        char_chunking cfg text none none fuel := by
  refine ⟨?_, ?_, ?_, ?_⟩
  · simp [mkRetriever, resolveQ, BM25_K1, BM25_B]
  · simp [mkRetriever, resolveQ, BM25_K1]
  · simp [mkRetriever, resolveQ, BM25_B]
  · intro cfg text fuel
    simp [char_chunking, resolveNat]

/-- Claim C2 amended (see the counterexample above): the explicit
`overlap = 0` argument is overridden by the instance default, so the
claim holds only for an instance whose configured overlap is 0.  Then,
for any 25-character string, `char_chunking` with `chunk_size = 10`
terminates (any fuel of at least 3 loop iterations suffices) and emits
the three stripped windows `[0,10)`, `[10,20)`, `[20,25)` with empty
ones dropped; in particular, on a whitespace-free 25-character string it
produces exactly those 3 chunks, which concatenate to the whole string
with no gaps. -/
theorem c2_three_chunks_amended :
    ∀ (text : List Char) (csI fuel : Nat),
      text.length = 25 → 3 ≤ fuel →
      char_chunking ⟨csI, 0⟩ text (some 10) (some 0) fuel =
        some (([text.take 10, (text.drop 10).take 10, text.drop 20].map pyStrip).filter
          (fun c => c ≠ [])) ∧
      ((∀ c ∈ text, c.isWhitespace = false) →
        char_chunking ⟨csI, 0⟩ text (some 10) (some 0) fuel =
          some [text.take 10, (text.drop 10).take 10, text.drop 20] ∧
        text.take 10 ++ ((text.drop 10).take 10 ++ text.drop 20) = text) := by
  intro text csI fuel hlen hfuel
  obtain ⟨k, rfl⟩ : ∃ k, fuel = k + 3 := by
    obtain ⟨k, hk⟩ := Nat.exists_eq_add_of_le hfuel
    exact ⟨k, by omega⟩
  have hne : text ≠ [] := by
    intro h; rw [h] at hlen; simp at hlen
  have htake5 : (text.drop 20).take 5 = text.drop 20 := by
    apply List.take_of_length_le
    simp [List.length_drop, hlen]
  have h3 : charChunkLoop text 10 0 (k + 1) 20 =
      some [pyStrip (text.drop 20)] := by
    rw [charChunkLoop]
    simp only [hlen]
    norm_num [htake5]
  have h2 : charChunkLoop text 10 0 (k + 1 + 1) 10 =
      some [pyStrip ((text.drop 10).take 10), pyStrip (text.drop 20)] := by
    rw [charChunkLoop]
    simp only [hlen]
    norm_num [h3]
  have h1 : charChunkLoop text 10 0 (k + 1 + 1 + 1) 0 =
      some [pyStrip (text.take 10), pyStrip ((text.drop 10).take 10),
        pyStrip (text.drop 20)] := by
    rw [charChunkLoop]
    simp only [hlen]
    norm_num [h2]
  have hloop : charChunkLoop text 10 0 (k + 3) 0 =
      some [pyStrip (text.take 10), pyStrip ((text.drop 10).take 10),
        pyStrip (text.drop 20)] := h1
  have hr1 : resolveNat (some 10) (TPConfig.mk csI 0).chunk_size = 10 := rfl
  have hr2 : resolveNat (some 0) (TPConfig.mk csI 0).overlap = 0 := rfl
  have hmain : char_chunking ⟨csI, 0⟩ text (some 10) (some 0) (k + 3) =
      some (([text.take 10, (text.drop 10).take 10, text.drop 20].map pyStrip).filter
        (fun c => c ≠ [])) := by
    unfold char_chunking
    rw [if_neg hne, hr1, hr2, hloop]
    rfl
  refine ⟨hmain, fun hws => ?_⟩
  have hs1 : pyStrip (text.take 10) = text.take 10 :=
    pyStrip_eq_self _ (fun c hc => hws c (List.mem_of_mem_take hc))
  have hs2 : pyStrip ((text.drop 10).take 10) = (text.drop 10).take 10 :=
    pyStrip_eq_self _ (fun c hc => hws c (List.mem_of_mem_drop (List.mem_of_mem_take hc)))
  have hs3 : pyStrip (text.drop 20) = text.drop 20 :=
    pyStrip_eq_self _ (fun c hc => hws c (List.mem_of_mem_drop hc))
  have hl1 : text.take 10 ≠ [] := by
    intro h
    have := congrArg List.length h
    simp [List.length_take, hlen] at this
  have hl2 : (text.drop 10).take 10 ≠ [] := by
    intro h
    have := congrArg List.length h
    simp [List.length_take, List.length_drop, hlen] at this
  have hl3 : text.drop 20 ≠ [] := by
    intro h
    have := congrArg List.length h
    simp [List.length_drop, hlen] at this
  constructor
  · rw [hmain]
    simp only [List.map, hs1, hs2, hs3]
    rw [List.filter_cons_of_pos, List.filter_cons_of_pos, List.filter_cons_of_pos]
    · rfl
    · simpa using hl3
    · simpa using hl2
    · simpa using hl1
  · rw [← List.drop_drop 10 10 text, List.take_append_drop, List.take_append_drop]

/-- Witness for the amended claim C2 at a concrete whitespace-free
25-character string and fuel 3. -/
theorem c2_three_chunks_amended_witness :
    (aaa25.length = 25 ∧ 3 ≤ 3) ∧
    (char_chunking ⟨1000, 0⟩ aaa25 (some 10) (some 0) 3 =
        some (([aaa25.take 10, (aaa25.drop 10).take 10, aaa25.drop 20].map pyStrip).filter
          (fun c => c ≠ [])) ∧
      ((∀ c ∈ aaa25, c.isWhitespace = false) →
        char_chunking ⟨1000, 0⟩ aaa25 (some 10) (some 0) 3 =
          some [aaa25.take 10, (aaa25.drop 10).take 10, aaa25.drop 20] ∧
        aaa25.take 10 ++ ((aaa25.drop 10).take 10 ++ aaa25.drop 20) = aaa25)) :=
  ⟨⟨by decide, by decide⟩, c2_three_chunks_amended aaa25 1000 3 (by decide) (by decide)⟩

/-- Claim C8 (confirmed): `semantic_chunking` on input that cleans to
zero sentences returns the empty list, and on input that cleans to
exactly one sentence returns exactly that sentence as the single chunk.
Both results hold for every encoder function, i.e. the output does not
depend on the encoder, which is the extensional meaning of the encoder
never being invoked on these paths. -/
theorem c8_zero_or_one_sentence :
    ∀ (cfg : TPConfig) (text s0 : List Char)
      (encoder_fn : List (List Char) → List (List ℚ)) (thr : ℚ) (fuel : Nat),
      (split_into_sentences (clean_text text) = [] →
        semantic_chunking cfg text encoder_fn thr fuel = some []) ∧
      (split_into_sentences (clean_text text) = [s0] →
        semantic_chunking cfg text encoder_fn thr fuel = some [s0]) := by
  intro cfg text s0 encoder_fn thr fuel
  constructor
  · intro h
    by_cases hc : clean_text text = []
    · simp [semantic_chunking, hc]
    · simp [semantic_chunking, hc, h]
  · intro h
    have hc : clean_text text ≠ [] := by
      intro hc
      rw [hc] at h
      have hnil : split_into_sentences ([] : List Char) = [] := rfl
      rw [hnil] at h
      exact List.noConfusion h
    simp [semantic_chunking, hc, h]

/-- One-sentence test text for the claim C8 witness. -/
def hiText : List Char := ['h', 'i']

/-- An encoder stub whose result is independent of its input and has the
wrong shape for any nonempty sentence list. -/
def badEnc : List (List Char) → List (List ℚ) := fun _ => []

/-- Witness for claim C8 at a concrete one-sentence input and a concrete
encoder. -/
theorem c8_zero_or_one_sentence_witness :
    (split_into_sentences (clean_text hiText) = [hiText]) ∧
      semantic_chunking ⟨1000, 200⟩ hiText badEnc (13 / 20) 5 = some [hiText] :=
  ⟨by decide,
    (c8_zero_or_one_sentence ⟨1000, 200⟩ hiText hiText badEnc (13 / 20) 5).2 (by decide)⟩

/-- Claim C9 (confirmed): when the encoder result fails the
two-dimensional one-row-per-sentence shape check, `semantic_chunking`
returns exactly `char_chunking` applied to the same cleaned text with
the instance configuration, for every input with at least two sentences,
every threshold and every fuel; no error is propagated (the model is
total and equals the fallback outright). -/
theorem c9_bad_shape_falls_back :
    ∀ (cfg : TPConfig) (text : List Char)
      (encoder_fn : List (List Char) → List (List ℚ)) (thr : ℚ) (fuel : Nat),
      2 ≤ (split_into_sentences (clean_text text)).length →
      validShape (encoder_fn (split_into_sentences (clean_text text)))
          (split_into_sentences (clean_text text)).length = false →
      semantic_chunking cfg text encoder_fn thr fuel =
        char_chunking cfg (clean_text text) none none fuel := by
  intro cfg text encoder_fn thr fuel h2 hbad
  have hc : clean_text text ≠ [] := by
    intro hc
    rw [hc] at h2
    have hnil : split_into_sentences ([] : List Char) = [] := rfl
    rw [hnil] at h2
    simp at h2
  have hn0 : (split_into_sentences (clean_text text)).length ≠ 0 := by omega
  have hn1 : (split_into_sentences (clean_text text)).length ≠ 1 := by omega
  simp [semantic_chunking, hc, hn0, hn1, hbad]

/-- Two-sentence test text for the claim C9 witness. -/
def twoSents : List Char :=
  ['H', 'i', ' ', 't', 'h', 'e', 'r', 'e', '.', ' ', 'G', 'o', ' ', 'n', 'o', 'w', '.']

/-- Witness for claim C9 at a concrete two-sentence input and an encoder
returning a wrongly shaped (empty) result. -/
theorem c9_bad_shape_falls_back_witness :
    (2 ≤ (split_into_sentences (clean_text twoSents)).length ∧
      validShape (badEnc (split_into_sentences (clean_text twoSents)))
          (split_into_sentences (clean_text twoSents)).length = false) ∧
      semantic_chunking ⟨1000, 200⟩ twoSents badEnc (13 / 20) 50 =
        char_chunking ⟨1000, 200⟩ (clean_text twoSents) none none 50 :=
  ⟨⟨by decide, by decide⟩,
    c9_bad_shape_falls_back ⟨1000, 200⟩ twoSents badEnc (13 / 20) 50 (by decide) (by decide)⟩

/-- The document-frequency fold of `index_documents` counts, for each
token, the number of documents containing it at least once (set
semantics per document), on top of the initial table. -/
theorem doc_freqs_foldl (tdocs : List (List Token)) (f : Token → Nat) (t : Token) :
    (tdocs.foldl addDocFreqs f) t = f t + tdocs.countP (fun d => decide (t ∈ d)) := by
  induction tdocs generalizing f with
  | nil => simp
  | cons d rest ih =>
    rw [List.foldl_cons, ih, List.countP_cons]
    simp only [addDocFreqs]
    by_cases hd : t ∈ d
    · simp [hd]
      omega
    · simp [hd]

/-- Claim C4 (confirmed): after `index_documents`, the table keys are
exactly the distinct tokens of the corpus, the document frequency of
every key is the number of passages containing it at least once (set
semantics), the stored idf value is exactly
`ln ((N - df + 0.5) / (df + 0.5) + 1)` with `N` the passage count, and
this value is strictly positive for every key (including keys with
`df = N`). -/
theorem c4_idf_formula_positive :
    ∀ (k1 bParam : Option ℚ) (docs : List (List Char)) (s : BM25) (t : Token),
      s = index_documents (mkRetriever k1 bParam) docs →
      (t ∈ s.dfKeys ↔ ∃ d ∈ s.tokenized_docs, t ∈ d) ∧
      (t ∈ s.dfKeys →
        s.doc_freqs t = s.tokenized_docs.countP (fun d => decide (t ∈ d)) ∧
        idf s t = Real.log
          ((((docs.length : ℚ) -
                (s.tokenized_docs.countP (fun d => decide (t ∈ d)) : ℚ) + 1 / 2) /
              ((s.tokenized_docs.countP (fun d => decide (t ∈ d)) : ℚ) + 1 / 2) + 1 : ℚ)) ∧
        0 < idf s t) := by
  intro k1 bParam docs s t hs
  subst hs
  have hdf : (index_documents (mkRetriever k1 bParam) docs).doc_freqs t =
      (index_documents (mkRetriever k1 bParam) docs).tokenized_docs.countP
        (fun d => decide (t ∈ d)) := by
    simp only [index_documents]
    rw [doc_freqs_foldl]
    simp
  have hmem : t ∈ (index_documents (mkRetriever k1 bParam) docs).dfKeys ↔
      ∃ d ∈ (index_documents (mkRetriever k1 bParam) docs).tokenized_docs, t ∈ d := by
    simp only [index_documents]
    simp [List.mem_dedup, List.mem_flatten]
  refine ⟨hmem, fun hk => ⟨hdf, ?_, ?_⟩⟩
  · unfold idf idfArg
    rw [hdf]
    have hN : (index_documents (mkRetriever k1 bParam) docs).documents.length =
        docs.length := rfl
    rw [hN]
  · unfold idf
    apply Real.log_pos
    have hlt : (1 : ℚ) < idfArg (index_documents (mkRetriever k1 bParam) docs) t := by
      unfold idfArg
      have hdfle : (index_documents (mkRetriever k1 bParam) docs).doc_freqs t ≤
          docs.length := by
        rw [hdf]
        calc (index_documents (mkRetriever k1 bParam) docs).tokenized_docs.countP
              (fun d => decide (t ∈ d)) ≤
            (index_documents (mkRetriever k1 bParam) docs).tokenized_docs.length :=
              List.countP_le_length _
          _ = docs.length := by simp [index_documents]
      have hN : (index_documents (mkRetriever k1 bParam) docs).documents.length =
          docs.length := rfl
      rw [hN]
      set df : Nat := (index_documents (mkRetriever k1 bParam) docs).doc_freqs t with hdfdef
      have h1 : (0 : ℚ) < (docs.length : ℚ) - (df : ℚ) + 1 / 2 := by
        have hc : (df : ℚ) ≤ (docs.length : ℚ) := by exact_mod_cast hdfle
        linarith
      have h2 : (0 : ℚ) < (df : ℚ) + 1 / 2 := by positivity
      have h3 := div_pos h1 h2
      linarith
    calc (1 : ℝ) = ((1 : ℚ) : ℝ) := by norm_num
      _ < ((idfArg (index_documents (mkRetriever k1 bParam) docs) t : ℚ) : ℝ) := by
          exact_mod_cast hlt

/-- Two-passage corpus for the claim C4 witness; the token `b` occurs in
every passage, exercising the `df = N` case of the positivity claim. -/
def docsC4 : List (List Char) := [['a', ' ', 'b'], ['b']]

/-- Witness for claim C4 at a concrete corpus and the token `b` with
`df = N = 2`. -/
theorem c4_idf_formula_positive_witness :
    ((['b'] : Token) ∈ (index_documents (mkRetriever none none) docsC4).dfKeys) ∧
      ((index_documents (mkRetriever none none) docsC4).doc_freqs ['b'] =
          (index_documents (mkRetriever none none) docsC4).tokenized_docs.countP
            (fun d => decide ((['b'] : Token) ∈ d)) ∧
        idf (index_documents (mkRetriever none none) docsC4) ['b'] = Real.log
          ((((docsC4.length : ℚ) -
                ((index_documents (mkRetriever none none) docsC4).tokenized_docs.countP
                  (fun d => decide ((['b'] : Token) ∈ d)) : ℚ) + 1 / 2) /
              (((index_documents (mkRetriever none none) docsC4).tokenized_docs.countP
                  (fun d => decide ((['b'] : Token) ∈ d)) : ℚ) + 1 / 2) + 1 : ℚ)) ∧
        0 < idf (index_documents (mkRetriever none none) docsC4) ['b']) :=
  ⟨by decide,
    (c4_idf_formula_positive none none docsC4 _ ['b'] rfl).2 (by decide)⟩

/-- The score fold of `calculate_bm25_score` equals the sum over the
query tokens of the per-token contributions (zero for tokens absent from
the idf table). -/
theorem bm25Score_eq_sum (s : BM25) (q : List Token) (i : Nat) :
    bm25Score s q i =
      (q.map (fun t =>
        if t ∈ s.dfKeys then idf s t * ((termRatio s t i : ℚ) : ℝ) else 0)).sum := by
  have haux : ∀ (a : ℝ) (l : List Token),
      l.foldl (fun acc t =>
          if t ∈ s.dfKeys then acc + idf s t * ((termRatio s t i : ℚ) : ℝ) else acc) a =
        a + (l.map (fun t =>
          if t ∈ s.dfKeys then idf s t * ((termRatio s t i : ℚ) : ℝ) else 0)).sum := by
    intro a l
    induction l generalizing a with
    | nil => simp
    | cons t ts ih =>
      simp only [List.foldl_cons, List.map_cons, List.sum_cons]
      by_cases ht : t ∈ s.dfKeys
      · rw [if_pos ht, if_pos ht, ih]; ring
      · rw [if_neg ht, if_neg ht, ih]; ring
  unfold bm25Score
  rw [haux]
  simp

/-- Evaluation helper: the idf argument in terms of the corpus size and
the document frequency of the token. -/
theorem idfArg_eval (s : BM25) (t : Token) (n df : Nat)
    (hn : s.documents.length = n) (hdf : s.doc_freqs t = df) :
    idfArg s t = ((n : ℚ) - (df : ℚ) + 1 / 2) / ((df : ℚ) + 1 / 2) + 1 := by
  unfold idfArg
  rw [hn, hdf]

/-- Evaluation helper: the BM25 per-token factor in terms of the term
frequency and document length. -/
theorem termRatio_eval (s : BM25) (t : Token) (i : Nat) (tf dl : Nat)
    (h1 : (s.tokenized_docs.getD i []).count t = tf)
    (h2 : s.doc_lengths.getD i 0 = dl) :
    termRatio s t i = ((tf : ℚ) * (s.k1 + 1)) /
      ((tf : ℚ) + s.k1 * (1 - s.b + s.b * ((dl : ℚ) / s.avg_doc_length))) := by
  unfold termRatio
  rw [h1, h2]

/-- The average document length stored by `index_documents`, spelled out. -/
theorem index_documents_avg (s : BM25) (docs : List (List Char)) :
    (index_documents s docs).avg_doc_length =
      if ((docs.map tokenize).map List.length).length = 0 then 0
      else ((((docs.map tokenize).map List.length).sum : ℚ) /
            (((docs.map tokenize).map List.length).length : ℚ)) := rfl

/-- The document frequency of any token is at most the corpus size. -/
theorem index_df_le_length (k1 bParam : Option ℚ) (docs : List (List Char)) (t : Token) :
    (index_documents (mkRetriever k1 bParam) docs).doc_freqs t ≤ docs.length := by
  have h : (index_documents (mkRetriever k1 bParam) docs).doc_freqs t =
      (docs.map tokenize).countP (fun d => decide (t ∈ d)) := by
    simp only [index_documents]
    rw [doc_freqs_foldl]
    simp
  rw [h]
  calc (docs.map tokenize).countP (fun d => decide (t ∈ d)) ≤
      (docs.map tokenize).length := List.countP_le_length _
    _ = docs.length := by simp

/-- The stored idf value is nonnegative for every token (the `+1` inside
the logarithm keeps the argument at least 1). -/
theorem idf_nonneg (k1 bParam : Option ℚ) (docs : List (List Char)) (t : Token) :
    0 ≤ idf (index_documents (mkRetriever k1 bParam) docs) t := by
  unfold idf
  apply Real.log_nonneg
  have harg : (1 : ℚ) ≤ idfArg (index_documents (mkRetriever k1 bParam) docs) t := by
    unfold idfArg
    have hdfle := index_df_le_length k1 bParam docs t
    have hN : (index_documents (mkRetriever k1 bParam) docs).documents.length =
        docs.length := rfl
    rw [hN]
    set df : Nat := (index_documents (mkRetriever k1 bParam) docs).doc_freqs t
    have h1 : (0 : ℚ) ≤ (docs.length : ℚ) - (df : ℚ) + 1 / 2 := by
      have hc : (df : ℚ) ≤ (docs.length : ℚ) := by exact_mod_cast hdfle
      linarith
    have h2 : (0 : ℚ) < (df : ℚ) + 1 / 2 := by positivity
    have h3 := div_nonneg h1 (le_of_lt h2)
    linarith
  calc (1 : ℝ) = ((1 : ℚ) : ℝ) := by norm_num
    _ ≤ _ := by exact_mod_cast harg

/-- The stored average document length is nonnegative. -/
theorem index_avg_nonneg (k1 bParam : Option ℚ) (docs : List (List Char)) :
    0 ≤ (index_documents (mkRetriever k1 bParam) docs).avg_doc_length := by
  rw [index_documents_avg]
  split
  · exact le_refl 0
  · positivity

/-- With the default parameters the BM25 per-token factor is
nonnegative for every token and document index. -/
theorem termRatio_nonneg (docs : List (List Char)) (t : Token) (i : Nat) :
    0 ≤ termRatio (index_documents (mkRetriever none none) docs) t i := by
  unfold termRatio
  have hk1 : (index_documents (mkRetriever none none) docs).k1 = 3 / 2 := rfl
  have hb : (index_documents (mkRetriever none none) docs).b = 3 / 4 := rfl
  rw [hk1, hb]
  apply div_nonneg
  · positivity
  · have hq : (0 : ℚ) ≤
        (((index_documents (mkRetriever none none) docs).doc_lengths.getD i 0 : Nat) : ℚ) /
          (index_documents (mkRetriever none none) docs).avg_doc_length :=
      div_nonneg (by positivity) (index_avg_nonneg none none docs)
    have htf : (0 : ℚ) ≤
        (((index_documents (mkRetriever none none) docs).tokenized_docs.getD i []).count t : ℚ) := by
      positivity
    set q : ℚ :=
      (((index_documents (mkRetriever none none) docs).doc_lengths.getD i 0 : Nat) : ℚ) /
        (index_documents (mkRetriever none none) docs).avg_doc_length
    set tf : ℚ :=
      (((index_documents (mkRetriever none none) docs).tokenized_docs.getD i []).count t : ℚ)
    nlinarith

/-- Single-character tokens used by the claim C5 corpora. -/
def tT : Token := ['t']

/-- Single-character tokens used by the claim C5 corpora. -/
def uT : Token := ['u']

/-- Claim C5 corpus before adding an occurrence: `["u t", "u", "t"]`. -/
def docsA5 : List (List Char) := [['u', ' ', 't'], ['u'], ['t']]

/-- Claim C5 corpus after adding one `t` to the first passage:
`["u t t", "u", "t"]`. -/
def docsB5 : List (List Char) := [['u', ' ', 't', ' ', 't'], ['u'], ['t']]

/-- The claim C5 index over `docsA5` with default parameters. -/
def sA5 : BM25 := index_documents (mkRetriever none none) docsA5

/-- The claim C5 index over `docsB5` with default parameters. -/
def sB5 : BM25 := index_documents (mkRetriever none none) docsB5

/-- The claim C5 query token list: one query with two occurrences of `t`
and five of `u` (as `tokenize "t t u u u u u"` produces). -/
def qC5 : List Token := [tT, tT, uT, uT, uT, uT, uT]

/-- Average document length of the `docsA5` index. -/
theorem sA5_avg : sA5.avg_doc_length = 4 / 3 := by
  have hmap : (docsA5.map tokenize).map List.length = [2, 1, 1] := by decide
  rw [show sA5 = index_documents (mkRetriever none none) docsA5 from rfl,
    index_documents_avg, hmap]
  norm_num

/-- Average document length of the `docsB5` index. -/
theorem sB5_avg : sB5.avg_doc_length = 5 / 3 := by
  have hmap : (docsB5.map tokenize).map List.length = [3, 1, 1] := by decide
  rw [show sB5 = index_documents (mkRetriever none none) docsB5 from rfl,
    index_documents_avg, hmap]
  norm_num

/-- Claim C5 counterexample: relevance monotonicity fails.  Passage 0 of
`docsA5` contains the query term `t` and passage 1 does not; under the
query `[t, t, u, u, u, u, u]` passage 0 outranks passage 1.  After
adding one more occurrence of `t` to passage 0 (corpus `docsB5`, all
other passages fixed, re-indexed), passage 0 scores strictly below
passage 1: its score relative to a passage without the term decreased,
and the order even flips. -/
theorem c5_relative_monotonicity_counterexample :
    bm25Score sA5 qC5 1 < bm25Score sA5 qC5 0 ∧
    bm25Score sB5 qC5 0 < bm25Score sB5 qC5 1 := by
  have hL : 0 < Real.log (((8 / 5 : ℚ) : ℝ)) := by
    apply Real.log_pos
    push_cast
    norm_num
  have htA : tT ∈ sA5.dfKeys := by decide
  have huA : uT ∈ sA5.dfKeys := by decide
  have htB : tT ∈ sB5.dfKeys := by decide
  have huB : uT ∈ sB5.dfKeys := by decide
  have hidftA : idf sA5 tT = Real.log (((8 / 5 : ℚ) : ℝ)) := by
    unfold idf
    rw [idfArg_eval sA5 tT 3 2 (by decide) (by decide)]
    norm_num
  have hidfuA : idf sA5 uT = Real.log (((8 / 5 : ℚ) : ℝ)) := by
    unfold idf
    rw [idfArg_eval sA5 uT 3 2 (by decide) (by decide)]
    norm_num
  have hidftB : idf sB5 tT = Real.log (((8 / 5 : ℚ) : ℝ)) := by
    unfold idf
    rw [idfArg_eval sB5 tT 3 2 (by decide) (by decide)]
    norm_num
  have hidfuB : idf sB5 uT = Real.log (((8 / 5 : ℚ) : ℝ)) := by
    unfold idf
    rw [idfArg_eval sB5 uT 3 2 (by decide) (by decide)]
    norm_num
  have hk1A : sA5.k1 = 3 / 2 := rfl
  have hbA : sA5.b = 3 / 4 := rfl
  have hk1B : sB5.k1 = 3 / 2 := rfl
  have hbB : sB5.b = 3 / 4 := rfl
  have hrtA0 : termRatio sA5 tT 0 = 40 / 49 := by
    rw [termRatio_eval sA5 tT 0 1 2 (by decide) (by decide), hk1A, hbA, sA5_avg]
    norm_num
  have hruA0 : termRatio sA5 uT 0 = 40 / 49 := by
    rw [termRatio_eval sA5 uT 0 1 2 (by decide) (by decide), hk1A, hbA, sA5_avg]
    norm_num
  have hrtA1 : termRatio sA5 tT 1 = 0 := by
    rw [termRatio_eval sA5 tT 1 0 1 (by decide) (by decide)]
    norm_num
  have hruA1 : termRatio sA5 uT 1 = 80 / 71 := by
    rw [termRatio_eval sA5 uT 1 1 1 (by decide) (by decide), hk1A, hbA, sA5_avg]
    norm_num
  have hrtB0 : termRatio sB5 tT 0 = 25 / 22 := by
    rw [termRatio_eval sB5 tT 0 2 3 (by decide) (by decide), hk1B, hbB, sB5_avg]
    norm_num
  have hruB0 : termRatio sB5 uT 0 = 25 / 34 := by
    rw [termRatio_eval sB5 uT 0 1 3 (by decide) (by decide), hk1B, hbB, sB5_avg]
    norm_num
  have hrtB1 : termRatio sB5 tT 1 = 0 := by
    rw [termRatio_eval sB5 tT 1 0 1 (by decide) (by decide)]
    norm_num
  have hruB1 : termRatio sB5 uT 1 = 50 / 41 := by
    rw [termRatio_eval sB5 uT 1 1 1 (by decide) (by decide), hk1B, hbB, sB5_avg]
    norm_num
  have hA0 : bm25Score sA5 qC5 0 = Real.log (((8 / 5 : ℚ) : ℝ)) * (40 / 7) := by
    rw [bm25Score_eq_sum]
    simp only [qC5, List.map_cons, List.map_nil, List.sum_cons, List.sum_nil,
      if_pos htA, if_pos huA, hidftA, hidfuA, hrtA0, hruA0]
    push_cast
    ring
  have hA1 : bm25Score sA5 qC5 1 = Real.log (((8 / 5 : ℚ) : ℝ)) * (400 / 71) := by
    rw [bm25Score_eq_sum]
    simp only [qC5, List.map_cons, List.map_nil, List.sum_cons, List.sum_nil,
      if_pos htA, if_pos huA, hidftA, hidfuA, hrtA1, hruA1]
    push_cast
    ring
  have hB0 : bm25Score sB5 qC5 0 = Real.log (((8 / 5 : ℚ) : ℝ)) * (2225 / 374) := by
    rw [bm25Score_eq_sum]
    simp only [qC5, List.map_cons, List.map_nil, List.sum_cons, List.sum_nil,
      if_pos htB, if_pos huB, hidftB, hidfuB, hrtB0, hruB0]
    push_cast
    ring
  have hB1 : bm25Score sB5 qC5 1 = Real.log (((8 / 5 : ℚ) : ℝ)) * (250 / 41) := by
    rw [bm25Score_eq_sum]
    simp only [qC5, List.map_cons, List.map_nil, List.sum_cons, List.sum_nil,
      if_pos htB, if_pos huB, hidftB, hidfuB, hrtB1, hruB1]
    push_cast
    ring
  constructor
  · rw [hA0, hA1]
    apply mul_lt_mul_of_pos_left _ hL
    norm_num
  · rw [hB0, hB1]
    apply mul_lt_mul_of_pos_left _ hL
    norm_num

/-- Claim C5 amended: monotonicity does hold in the single-term form.
For any corpus indexed with the default parameters and a query that
consists of occurrences of one term only, a passage not containing the
term scores exactly 0 and a passage containing the term scores at least
that.  Since this holds for every corpus, it holds both before and after
adding occurrences of the term to the containing passage: for
single-term queries the containing passage never drops below a
term-free passage.  (For multi-term queries the original claim is false;
see the counterexample.) -/
theorem c5_single_term_relative_order :
    ∀ (docs : List (List Char)) (i j m : Nat) (t : Token) (s : BM25),
      s = index_documents (mkRetriever none none) docs →
      t ∈ s.tokenized_docs.getD i [] →
      t ∉ s.tokenized_docs.getD j [] →
      bm25Score s (List.replicate m t) j = 0 ∧
      bm25Score s (List.replicate m t) j ≤ bm25Score s (List.replicate m t) i := by
  intro docs i j m t s hs hi hj
  have hrj : termRatio s t j = 0 := by
    unfold termRatio
    rw [List.count_eq_zero_of_not_mem hj]
    norm_num
  have hzero : bm25Score s (List.replicate m t) j = 0 := by
    rw [bm25Score_eq_sum, List.map_replicate, List.sum_replicate]
    have hx : (if t ∈ s.dfKeys then idf s t * ((termRatio s t j : ℚ) : ℝ) else 0) = 0 := by
      by_cases ht : t ∈ s.dfKeys
      · rw [if_pos ht, hrj]
        simp
      · rw [if_neg ht]
    rw [hx, smul_zero]
  have hnn : 0 ≤ bm25Score s (List.replicate m t) i := by
    rw [bm25Score_eq_sum, List.map_replicate, List.sum_replicate]
    apply nsmul_nonneg
    by_cases ht : t ∈ s.dfKeys
    · rw [if_pos ht]
      apply mul_nonneg
      · rw [hs]
        exact idf_nonneg none none docs t
      · have h := termRatio_nonneg docs t i
        rw [← hs] at h
        exact_mod_cast h
    · rw [if_neg ht]
  exact ⟨hzero, by rw [hzero]; exact hnn⟩

/-- Witness for the amended claim C5 at the concrete corpus
`["a b", "b"]`, term `a`, containing passage 0, term-free passage 1, and
a query of two occurrences of the term. -/
theorem c5_single_term_relative_order_witness :
    ((['a'] : Token) ∈
        (index_documents (mkRetriever none none) docsC4).tokenized_docs.getD 0 [] ∧
      (['a'] : Token) ∉
        (index_documents (mkRetriever none none) docsC4).tokenized_docs.getD 1 []) ∧
    (bm25Score (index_documents (mkRetriever none none) docsC4)
        (List.replicate 2 ['a']) 1 = 0 ∧
      bm25Score (index_documents (mkRetriever none none) docsC4)
          (List.replicate 2 ['a']) 1 ≤
        bm25Score (index_documents (mkRetriever none none) docsC4)
          (List.replicate 2 ['a']) 0) :=
  ⟨⟨by decide, by decide⟩,
    c5_single_term_relative_order docsC4 0 1 2 ['a'] _ rfl (by decide) (by decide)⟩

/-- The ranking order produced by a stable descending sort on scores of
distinct original indices: strictly greater score first, and among equal
scores the smaller (earlier) original index first. -/
def rankLE (a bv : Nat × ℝ) : Prop := bv.2 < a.2 ∨ (a.2 = bv.2 ∧ a.1 < bv.1)

/-- Inserting an element whose original index is smaller than that of
every list element preserves the rank order: it goes after all strictly
greater scores and before all equal or smaller ones. -/
theorem orderedInsert_rankLE_pairwise (x : Nat × ℝ) (l : List (Nat × ℝ))
    (hl : l.Pairwise rankLE) (hx : ∀ y ∈ l, x.1 < y.1) :
    (List.orderedInsert (fun a bv => bv.2 ≤ a.2) x l).Pairwise rankLE := by
  induction l with
  | nil => simp [List.orderedInsert, rankLE]
  | cons y ys ih =>
    rw [List.pairwise_cons] at hl
    obtain ⟨hy, hys⟩ := hl
    by_cases hr : y.2 ≤ x.2
    · rw [List.orderedInsert, if_pos hr]
      refine List.Pairwise.cons ?_ (List.Pairwise.cons hy hys)
      intro z hz
      rcases List.mem_cons.mp hz with rfl | hzys
      · rcases lt_or_eq_of_le hr with hlt | heq
        · exact Or.inl hlt
        · exact Or.inr ⟨heq.symm, hx z (List.mem_cons_self z ys)⟩
      · rcases hy z hzys with hlt | ⟨heq, hidx⟩
        · exact Or.inl (lt_of_lt_of_le hlt hr)
        · rcases lt_or_eq_of_le hr with hlt2 | heq2
          · exact Or.inl (heq ▸ hlt2)
          · exact Or.inr ⟨heq2.symm.trans heq, hx z (List.mem_cons_of_mem y hzys)⟩
    · rw [List.orderedInsert, if_neg hr]
      push_neg at hr
      refine List.Pairwise.cons ?_ (ih hys (fun y2 hy2 => hx y2 (List.mem_cons_of_mem y hy2)))
      intro z hz
      rcases (List.mem_orderedInsert _).mp hz with rfl | hzys
      · exact Or.inl hr
      · exact hy z hzys

/-- The stable descending sort of a list with strictly increasing
original indices is ordered by `rankLE`: scores descending, ties by
original position. -/
theorem sortScores_pairwise (l : List (Nat × ℝ))
    (hl : l.Pairwise (fun a bv => a.1 < bv.1)) :
    (sortScores l).Pairwise rankLE := by
  induction l with
  | nil => simp [sortScores, List.insertionSort]
  | cons x xs ih =>
    rw [List.pairwise_cons] at hl
    obtain ⟨hx, hxs⟩ := hl
    unfold sortScores
    rw [List.insertionSort]
    apply orderedInsert_rankLE_pairwise
    · exact ih hxs
    · intro y hy
      exact hx y ((List.perm_insertionSort _ xs).mem_iff.mp hy)

/-- Claim C7 (confirmed): for every index state, query and `top_k`,
`retrieve` maps the ranked `(index, score)` prefix back to documents;
the ranked list is the stable descending sort of the full score list
truncated to `top_k`; the sort is a permutation of the score list and is
ordered by score descending with ties broken by original passage order;
the result length is `min top_k N`; and when the corpus has at most
`top_k` passages the ranked list is a permutation of the whole score
list (all passages are returned).  `retrieve` is a pure function of the
state in this model, matching the code, which reads but never assigns
index state. -/
theorem c7_retrieve_sorted_stable_truncated :
    ∀ (s : BM25) (query : List Char) (k : Nat),
      retrieve s query (some k) =
        (retrieveRanked s query (some k)).map (fun p => (s.documents.getD p.1 [], p.2)) ∧
      retrieveRanked s query (some k) =
        (sortScores (scoresList s (tokenize query))).take k ∧
      (sortScores (scoresList s (tokenize query))).Perm (scoresList s (tokenize query)) ∧
      (sortScores (scoresList s (tokenize query))).Pairwise rankLE ∧
      (retrieve s query (some k)).length = min k s.documents.length ∧
      (s.documents.length ≤ k →
        (retrieveRanked s query (some k)).Perm (scoresList s (tokenize query))) := by
  intro s query k
  have hperm : (sortScores (scoresList s (tokenize query))).Perm
      (scoresList s (tokenize query)) := List.perm_insertionSort _ _
  have hlenscores : (scoresList s (tokenize query)).length = s.documents.length := by
    simp [scoresList]
  have hpw : (sortScores (scoresList s (tokenize query))).Pairwise rankLE := by
    apply sortScores_pairwise
    unfold scoresList
    rw [List.pairwise_map]
    exact List.pairwise_lt_range _
  refine ⟨rfl, rfl, hperm, hpw, ?_, ?_⟩
  · unfold retrieve retrieveRanked
    rw [List.length_map, List.length_take, Option.getD_some, hperm.length_eq, hlenscores]
  · intro hk
    unfold retrieveRanked
    rw [Option.getD_some, List.take_of_length_le]
    · exact hperm
    · rw [hperm.length_eq, hlenscores]
      exact hk

/-- A two-passage index used for the claim C7 witness. -/
def sC7 : BM25 := index_documents (mkRetriever none none) [['a'], ['b']]

/-- Witness for claim C7: a corpus of 2 passages with `top_k = 3`
returns (a permutation of) all passages. -/
theorem c7_retrieve_sorted_stable_truncated_witness :
    sC7.documents.length ≤ 3 ∧
      (retrieveRanked sC7 ['a'] (some 3)).Perm (scoresList sC7 (tokenize ['a'])) :=
  ⟨by decide, (c7_retrieve_sorted_stable_truncated sC7 ['a'] 3).2.2.2.2.2 (by decide)⟩
